import Mathlib

/-!
Verification of the memory-management core of the InfOS teaching kernel:
the buddy page-frame allocator, the x86 page-table-entry accessors and the
control flow of the ELF executable loader.

The definitions below are shallow embeddings of the C++ sources:
* namespace BuddyAllocator : class BuddyPageAllocator (src/unnamed/part_004)
  together with the intrusive LinkedList of src/include/infos/util/linked-list.h
  (a FrameDescriptor pointer is identified with its index in the
  _page_descriptors array, which is how the code itself uses it via index_of).
* namespace PTE : struct GenericX86PageTableEntry (src/unnamed/part_002) and
  the GenericPageTableEntry base (src/include/infos/mm/vma.h).
* namespace ElfLoaderModel : ElfLoader::load (src/fs/exec/elf-loader.cpp),
  with the VMA operations it calls abstracted as a state machine, since
  vma.cpp is not part of the sources.
-/

namespace BuddyAllocator

/-- MAX_ORDER of part_004: #define MAX_ORDER 18. -/
def MAX_ORDER : Nat := 18

/-- Allocator state of BuddyPageAllocator: the per-order free lists
(LinkedList _free_lists[MAX_ORDER], each holding frame indices; the C++ holds
FrameDescriptor pointers that correspond bijectively to indices through
index_of), the flags field of every FrameDescriptor (part_003:
0 = free, 1 = allocated) modelled as a function from frame index, and
_nr_page_descriptors. -/
structure BuddyState where
  free_lists : List (List Nat)
  flags : Nat → Nat
  nr : Nat

/-- Reading _free_lists[k]. -/
def BuddyState.list (s : BuddyState) (k : Nat) : List Nat :=
  s.free_lists.getD k []

/-- Writing _free_lists[k]. -/
def BuddyState.setList (s : BuddyState) (k : Nat) (l : List Nat) : BuddyState :=
  { s with free_lists := s.free_lists.set k l }

/-- insert_block(index, order): sets page->flags = 0 and appends the
descriptor to _free_lists[order] (LinkedList::append adds at the tail). -/
def insert_block (s : BuddyState) (index : Nat) (order : Nat) : BuddyState :=
  let s' : BuddyState := { s with flags := fun i => if i = index then 0 else s.flags i }
  s'.setList order (s'.list order ++ [index])

/-- is_free(page): page->flags == 0. -/
def is_free (s : BuddyState) (index : Nat) : Bool :=
  s.flags index = 0

/-- remove_specific_block(page, order): walks _free_lists[order] from the
front and removes the first node whose data equals page (a silent no-op when
page is not in that list).  List.erase removes exactly the first occurrence. -/
def remove_specific_block (s : BuddyState) (index : Nat) (order : Nat) : BuddyState :=
  s.setList order ((s.list order).erase index)

/-- The scan loop of allocate, with the loop condition current_order < MAX_ORDER
carried as the structurally decreasing count MAX_ORDER - current_order (the
count is positive exactly when current_order < MAX_ORDER):
while (current_order < MAX_ORDER && _free_lists[current_order].empty())
current_order++. Returns the final current_order. -/
def scan_aux (s : BuddyState) : Nat → Nat → Nat
  | 0, k => k
  | fuel + 1, k => if s.list k = [] then scan_aux s fuel (k + 1) else k

/-- The final current_order of the scan loop started at k. -/
def scan_order (s : BuddyState) (k : Nat) : Nat :=
  scan_aux s (MAX_ORDER - k) k

/-- The split loop of allocate:
while (current_order > order) { current_order--;
  buddy_index = index_of(block) + (1 << current_order);
  insert_block(buddy_index, current_order); }.
The first argument of the match is current_order. -/
def split_loop (block : Nat) (order : Nat) : Nat → BuddyState → BuddyState
  | 0, s => s
  | co + 1, s =>
    if order < co + 1 then
      split_loop block order co (insert_block s (block + (1 <<< co)) co)
    else s

/-- allocate(order): scan upward for a non-empty free list; nullptr (none)
if current_order reaches MAX_ORDER; otherwise remove_first (the list head),
split down to the requested order, and set block->flags = 1. -/
def allocate (s : BuddyState) (order : Nat) : Option Nat × BuddyState :=
  let current_order := scan_order s order
  if current_order = MAX_ORDER then (none, s)
  else
    let block := (s.list current_order).head!
    let s1 := s.setList current_order (s.list current_order).tail
    let s2 := split_loop block order current_order s1
    (some block, { s2 with flags := fun i => if i = block then 1 else s2.flags i })

/-- The buddy-index computation used by free: index ^ (1 << order). -/
def buddy_of (index : Nat) (order : Nat) : Nat :=
  index ^^^ (1 <<< order)

/-- The merge loop of free:
while (order < MAX_ORDER - 1) { buddy_index = index ^ (1 << order);
  if (!is_free(buddy)) break;
  remove_specific_block(buddy, order);
  index = index < buddy_index ? index : buddy_index; order++; }
followed by insert_block(index, order). -/
def free_merge_aux (s : BuddyState) (index : Nat) (order : Nat) : Nat → BuddyState
  | 0 => insert_block s index order
  | fuel + 1 =>
    let buddy_index := buddy_of index order
    if is_free s buddy_index then
      free_merge_aux (remove_specific_block s buddy_index order)
        (if index < buddy_index then index else buddy_index) (order + 1) fuel
    else insert_block s index order

/-- The merge loop started at index and order; the loop condition
order < MAX_ORDER - 1 is carried as the structurally decreasing count
(MAX_ORDER - 1) - order, positive exactly when order < MAX_ORDER - 1. -/
def free_merge (s : BuddyState) (index : Nat) (order : Nat) : BuddyState :=
  free_merge_aux s index order (MAX_ORDER - 1 - order)

/-- free(page, order): uint64_t index = index_of(page); then the merge loop. -/
def free (s : BuddyState) (page : Nat) (order : Nat) : BuddyState :=
  free_merge s page order

/-- Conversion of a uint64_t to a (32-bit, two's complement) int, for the
(int)nr_page_descriptors cast in the initialise loop. -/
def toInt32 (n : Nat) : Int :=
  if n % 2 ^ 32 < 2 ^ 31 then ((n % 2 ^ 32 : Nat) : Int)
  else ((n % 2 ^ 32 : Nat) : Int) - 2 ^ 32

/-- int block_size = 1 << (MAX_ORDER - 1). -/
def block_size : Int := 2 ^ (MAX_ORDER - 1)

/-- The initialise loop:
for (int i = 0; i < (int)nr_page_descriptors; i += block_size)
  if (i + block_size <= nr_page_descriptors) insert_block(i, MAX_ORDER - 1).
The comparison i + block_size <= nr_page_descriptors promotes i to uint64_t
(i is never negative when reached), so it is carried out over the exact
integers here; the i of insert_block(i, ...) is likewise non-negative. -/
def initialise_loop (nr : Nat) : Nat → Int → BuddyState → BuddyState
  | 0, _, s => s
  | fuel + 1, i, s =>
    if i < toInt32 nr then
      initialise_loop nr fuel (i + block_size)
        (if i + block_size ≤ (nr : Int) then insert_block s i.toNat (MAX_ORDER - 1) else s)
    else s

/-- A structural bound on the number of iterations of the initialise loop:
i starts at 0, grows by block_size = 2^(MAX_ORDER-1) each iteration and the
loop exits once i ≥ (int)nr_page_descriptors < 2^31, so it iterates fewer
than 2^31 / 2^(MAX_ORDER-1) + 1 times. -/
def init_fuel : Nat := 2 ^ (32 - MAX_ORDER) + 1

/-- initialise(page_descriptors, nr_page_descriptors): stores the descriptor
array (its flags field enters as flags0) and the count, clears every free
list, and runs the partition loop. -/
def initialise (flags0 : Nat → Nat) (nr : Nat) : BuddyState :=
  initialise_loop nr init_fuel 0
    { free_lists := List.replicate MAX_ORDER [], flags := flags0, nr := nr }

/-! ### A concrete precondition-respecting history of the allocator

Starting from initialise on 2^17 zero-initialised descriptors, the calls
allocate(0) (returning 0), allocate(0) (returning 1), allocate(0)
(returning 2), allocate(0) (returning 3), free(0,0), free(1,0), free(2,0)
are performed: every free matches an allocate of the same block at the same
order, and no double free occurs (block 3 stays allocated). -/

def sInit : BuddyState := initialise (fun _ => 0) (2 ^ 17)

def sA0 : BuddyState := (allocate sInit 0).2

def sA1 : BuddyState := (allocate sA0 0).2

def sA2 : BuddyState := (allocate sA1 0).2

def sA3 : BuddyState := (allocate sA2 0).2

def sF0 : BuddyState := free sA3 0 0

def sF1 : BuddyState := free sF0 1 0

/-- The state reached by the history above: free lists
order 0 ↦ [2], order 1 ↦ [0], order j ↦ [2^j] for 2 ≤ j ≤ 16, order 17 ↦ [],
with frame 3 still allocated.  Frame 2 has flags = 0 and is the base of the
free order-0 run [2], while 2 = 0 XOR (1 << 1) is also the order-1 buddy
index of the free order-1 run based at 0. -/
def sPre : BuddyState := free sF1 2 0

/-- The state after the adjacent pair allocate(1) (which returns block 0) and
free(0, 1) executed from sPre. -/
def sPost : BuddyState := free (allocate sPre 1).2 0 1

/-! ### The claims about the allocator, stated in their own words -/

/-- The first order k with order ≤ k < MAX_ORDER whose free list is
non-empty, as the claim words it: scan orders from the requested order
upward for the first non-empty free list. -/
def first_free_order (s : BuddyState) (order : Nat) : Option Nat :=
  (List.range' order (MAX_ORDER - order)).find? (fun k => !(s.list k).isEmpty)

/-- Removing one block (the first) from the free list at order k. -/
def remove_first_block (s : BuddyState) (k : Nat) : BuddyState :=
  s.setList k ((s.list k).tail)

/-- Splitting per the claim: while the found order k exceeds the requested
order, split the block in half one level at a time, keeping the lower half
and reinserting the upper half (block + 2^j) into the free list at the
now-one-smaller order j, for j = k-1 down to order. -/
def split_down (s : BuddyState) (block : Nat) (k : Nat) (order : Nat) : BuddyState :=
  ((List.range' order (k - order)).reverse).foldl
    (fun t j => insert_block t (block + 2 ^ j) j) s

/-- Marking the returned block base as allocated. -/
def mark_allocated (s : BuddyState) (b : Nat) : BuddyState :=
  { s with flags := fun i => if i = b then 1 else s.flags i }

/-- C1 as a predicate on a state and an order: if no free list from the
requested order up to MAX_ORDER is non-empty, allocate returns the
out-of-memory indicator with the state unchanged; otherwise, with k the
first non-empty order, it removes the first block of that list, splits it
down to the requested order keeping the lower half, marks the base as
allocated, and returns it. -/
def allocate_claim (s : BuddyState) (order : Nat) : Prop :=
  match first_free_order s order with
  | none => allocate s order = (none, s)
  | some k =>
      s.list k ≠ [] ∧
      allocate s order =
        (some ((s.list k).head!),
         mark_allocated
           (split_down (remove_first_block s k) ((s.list k).head!) k order)
           ((s.list k).head!))

/-- C10 as a predicate: either every free list from the requested order
through MAX_ORDER - 1 is empty and allocate returns the null indicator
before mutating anything, or the scan stops at a verified non-empty list
whose first element (the descriptor remove_first returns, necessarily
non-null) is the returned block. -/
def allocate_no_null_claim (s : BuddyState) (order : Nat) : Prop :=
  ((∀ j, order ≤ j → j < MAX_ORDER → s.list j = []) ∧ allocate s order = (none, s))
  ∨ (∃ k b rest, order ≤ k ∧ k < MAX_ORDER ∧ s.list k = b :: rest ∧
      (allocate s order).1 = some b)

/-- The merge loop of free as the claim words it: the buddy index is the
block index XOR (1 << order); while the buddy block is free and order is
below MAX_ORDER - 1, remove the buddy from its free list, merge taking the
lower of the two indices as the new base, and increment order; when the
loop stops, insert the resulting block into the free list for the
resulting order, marking it free. -/
def free_claim_merge (s : BuddyState) (block : Nat) (order : Nat) : BuddyState :=
  if h : order < MAX_ORDER - 1 ∧ s.flags (block ^^^ (1 <<< order)) = 0 then
    free_claim_merge (remove_specific_block s (block ^^^ (1 <<< order)) order)
      (min block (block ^^^ (1 <<< order))) (order + 1)
  else insert_block s block order
termination_by MAX_ORDER - order
decreasing_by omega

/-- C5 as a predicate on the initial descriptor flags and the count:
initialise inserts exactly count / 2^(MAX_ORDER-1) blocks into the
order MAX_ORDER - 1 free list, namely the aligned bases
0, 2^(MAX_ORDER-1), 2·2^(MAX_ORDER-1), ..., leaves every other free list
empty, and registers no trailing frames beyond a complete top-order
block (every inserted base b satisfies b + 2^(MAX_ORDER-1) ≤ count). -/
def initialise_claim (flags0 : Nat → Nat) (nr : Nat) : Prop :=
  ((initialise flags0 nr).list (MAX_ORDER - 1)).length = nr / 2 ^ (MAX_ORDER - 1)
  ∧ (initialise flags0 nr).list (MAX_ORDER - 1) =
      (List.range (nr / 2 ^ (MAX_ORDER - 1))).map (fun t => t * 2 ^ (MAX_ORDER - 1))
  ∧ (∀ j, j < MAX_ORDER → j ≠ MAX_ORDER - 1 → (initialise flags0 nr).list j = [])
  ∧ (∀ b ∈ (initialise flags0 nr).list (MAX_ORDER - 1),
      2 ^ (MAX_ORDER - 1) ∣ b ∧ b + 2 ^ (MAX_ORDER - 1) ≤ nr)

end BuddyAllocator

namespace PTE

/-! Embedding of struct GenericX86PageTableEntry (arch/x86/vma.h, part_002)
and the GenericPageTableEntry accessors of include/infos/mm/vma.h.  The one
64-bit word bits is a Nat; the C++ constant ~0xfff over uint64_t is the
64-bit value 0xFFFFFFFFFFFFF000, and ~mask over (32-bit) int applied to a
small non-negative mask has the bit pattern 0xffffffff ^^^ mask. -/

/-- enum PageTableEntryFlags (include/infos/mm/vma.h). -/
def PTE_PRESENT : Nat := 1

def PTE_WRITABLE : Nat := 2

def PTE_ALLOW_USER : Nat := 4

def PTE_WRITE_THROUGH : Nat := 8

def PTE_CACHE_DISABLED : Nat := 16

def PTE_ACCESSED : Nat := 32

def PTE_DIRTY : Nat := 64

/-- Bit 7; PTE_PS and PTE_PT_PAT are declared as aliases of this value. -/
def PTE_HUGE : Nat := 128

def PTE_GLOBAL : Nat := 256

/-- PAT at non-PT levels: 1 << 12. -/
def PTE_NONPT_PAT : Nat := 4096

/-- The one-word page-table entry record. -/
structure GenericX86PageTableEntry where
  bits : Nat
deriving DecidableEq

/-- base_address() getter: bits & ~0xfff. -/
def base_address (e : GenericX86PageTableEntry) : Nat :=
  e.bits &&& 0xFFFFFFFFFFFFF000

/-- base_address(addr) setter: bits &= 0xfff; bits |= addr & ~0xfff. -/
def set_base_address (e : GenericX86PageTableEntry) (addr : Nat) : GenericX86PageTableEntry :=
  ⟨(e.bits &&& 0xfff) ||| (addr &&& 0xFFFFFFFFFFFFF000)⟩

/-- flags() getter: bits & 0xfff (the uint16_t return value is below 2^12). -/
def flags (e : GenericX86PageTableEntry) : Nat :=
  e.bits &&& 0xfff

/-- flags(f) setter: bits &= ~0xfff; bits |= f & 0xfff. -/
def set_flags (e : GenericX86PageTableEntry) (f : Nat) : GenericX86PageTableEntry :=
  ⟨(e.bits &&& 0xFFFFFFFFFFFFF000) ||| (f &&& 0xfff)⟩

/-- get_flag(mask): !!(flags() & mask). -/
def get_flag (e : GenericX86PageTableEntry) (mask : Nat) : Bool :=
  flags e &&& mask != 0

/-- set_flag(mask, v): flags(flags() | mask) when v, else
flags(flags() & ~mask); the ~ is over int, i.e. XOR against 0xffffffff on
these non-negative values. -/
def set_flag (e : GenericX86PageTableEntry) (mask : Nat) (v : Bool) : GenericX86PageTableEntry :=
  if v then set_flags e (flags e ||| mask)
  else set_flags e (flags e &&& (0xffffffff ^^^ mask))

/-- present() derived accessor. -/
def present (e : GenericX86PageTableEntry) : Bool := get_flag e PTE_PRESENT

/-- writable() derived accessor. -/
def writable (e : GenericX86PageTableEntry) : Bool := get_flag e PTE_WRITABLE

/-- user() derived accessor. -/
def user (e : GenericX86PageTableEntry) : Bool := get_flag e PTE_ALLOW_USER

/-- huge() derived accessor. -/
def huge (e : GenericX86PageTableEntry) : Bool := get_flag e PTE_HUGE

/-- The ten flags of the flag bitset named by the data-model of the spec:
present, writable, user-accessible, huge (= PS = PT-level PAT), accessed,
dirty, global, write-through, cache-disabled, and the non-PT-level PAT. -/
def spec_flag_masks : List Nat :=
  [PTE_PRESENT, PTE_WRITABLE, PTE_ALLOW_USER, PTE_HUGE, PTE_ACCESSED,
   PTE_DIRTY, PTE_GLOBAL, PTE_WRITE_THROUGH, PTE_CACHE_DISABLED, PTE_NONPT_PAT]

end PTE

namespace ElfLoaderModel

/-! Embedding of the control flow of ElfLoader::load
(src/fs/exec/elf-loader.cpp).  The VMA object the loader calls into is
implemented in vma.cpp, which is not among the sources; following the spec
(section 6, Executable loader → VMA) it is abstracted as a deterministic
state machine over an opaque state type, whose operations return the
explicit success/failure indicator that the spec says every fallible
operation returns.  File reads of program-header entries are taken to
succeed (the pread failure path returns NULL and is not at issue in the
claims); the file bytes themselves are irrelevant to the control flow
except for the PT_INTERP strncmp check, abstracted as the interp_ok field
of the entry. -/

def PAGE_SIZE : Nat := 4096

def PT_LOAD : Nat := 1

def PT_INTERP : Nat := 3

/-- __align_down_page. -/
def align_down_page (x : Nat) : Nat := x - x % PAGE_SIZE

/-- Modelled from the spec: __align_up_page is defined outside the sources;
it rounds up to the next page boundary (identity on aligned addresses). -/
def align_up_page (x : Nat) : Nat := align_down_page (x + (PAGE_SIZE - 1))

/-- Modelled from the spec: the VMA operations the loader calls, as an
abstract state machine (vma.cpp is not among the sources).  is_mapped
queries; allocate_virt(va, nr_pages, perm) and copy_to(dest_va, size)
mutate the state and return an explicit success indicator. -/
structure VmaOps (σ : Type) where
  is_mapped : σ → Nat → Bool
  allocate_virt : σ → Nat → Nat → Int → Bool × σ
  copy_to : σ → Nat → Nat → Bool × σ

/-- The fields of ELF64Header that load examines. -/
structure ELF64Header where
  magic : Nat
  eclass : Nat
  data : Nat
  etype : Nat
  machine : Nat
  version : Nat
  entry_point : Nat

/-- The sequence of header validations at the top of load, each of which
returns NULL on failure: magic number, 64-bit class, little-endian data,
ET_EXEC type, x86-64 machine, version 1. -/
def header_ok (h : ELF64Header) : Bool :=
  h.magic == 0x464c457f && h.eclass == 2 && h.data == 1 &&
  h.etype == 2 && h.machine == 0x3e && h.version == 1

/-- The fields of ELF64ProgramHeaderEntry that load examines; interp_ok
abstracts the file-content comparison
strncmp(buffer, the dynamic-linker magic string, filesz) == 0 of the
PT_INTERP case. -/
structure ELF64ProgramHeaderEntry where
  ptype : Nat
  offset : Nat
  vaddr : Nat
  filesz : Nat
  memsz : Nat
  interp_ok : Bool

/-- The per-page loop of the PT_LOAD case: for each page the segment
overlaps, allocate backing memory if the page is not yet mapped (the
return value of allocate_virt is not inspected by the code), then select
the copy size for this page (whole page inside the file data; leading
partial page; past end of file data, no copy; trailing partial page) and
copy_to it (again without inspecting the return value).  The returned list
accumulates, in order, the success indicators of every allocate_virt and
copy_to call made, so that the treatment of failures can be stated; the
code itself discards them.  The loop variables are current_vaddr and
nextpage_vaddr; the structural count bounds the iterations, of which
there are at most memsz / PAGE_SIZE + 2 since current_vaddr advances to
nextpage_vaddr, which then grows by PAGE_SIZE each time. -/
def load_segment_loop (vma : VmaOps σ) (ent : ELF64ProgramHeaderEntry) :
    Nat → Nat → Nat → σ → List Bool → σ × List Bool
  | 0, _, _, st, log => (st, log)
  | fuel + 1, cur, nextpage, st0, log0 =>
    if cur < ent.vaddr + ent.memsz then
      let stl :=
        if vma.is_mapped st0 cur then (st0, log0)
        else
          let r := vma.allocate_virt st0 cur 1 (-1)
          (r.2, log0 ++ [r.1])
      let st := stl.1
      let log := stl.2
      let file_end := ent.vaddr + ent.filesz
      if cur % PAGE_SIZE = 0 ∧ nextpage ≤ file_end then
        let r := vma.copy_to st cur PAGE_SIZE
        load_segment_loop vma ent fuel nextpage (nextpage + PAGE_SIZE) r.2 (log ++ [r.1])
      else if cur = ent.vaddr ∧ nextpage ≤ file_end then
        let r := vma.copy_to st cur (align_up_page ent.vaddr - ent.vaddr)
        load_segment_loop vma ent fuel nextpage (nextpage + PAGE_SIZE) r.2 (log ++ [r.1])
      else if file_end ≤ cur then
        load_segment_loop vma ent fuel nextpage (nextpage + PAGE_SIZE) st log
      else
        let r := vma.copy_to st cur (file_end - cur)
        load_segment_loop vma ent fuel nextpage (nextpage + PAGE_SIZE) r.2 (log ++ [r.1])
    else (st0, log0)

/-- The loop over the phnum program-header entries (the list models the
entries read from the file): PT_LOAD runs the per-page loop, PT_INTERP
returns NULL for an unsupported interpreter and otherwise records
use_interp, other types are skipped.  none models the abort (delete np;
return NULL). -/
def process_phs (vma : VmaOps σ) :
    List ELF64ProgramHeaderEntry → σ → List Bool → Bool → Option (σ × List Bool × Bool)
  | [], st, log, use_interp => some (st, log, use_interp)
  | ent :: rest, st, log, use_interp =>
    if ent.ptype = PT_LOAD then
      let r := load_segment_loop vma ent (ent.memsz / PAGE_SIZE + 2)
        ent.vaddr (align_down_page (ent.vaddr + PAGE_SIZE)) st log
      process_phs vma rest r.1 r.2 use_interp
    else if ent.ptype = PT_INTERP then
      if ent.interp_ok then process_phs vma rest st log true
      else none
    else process_phs vma rest st log use_interp

/-- ElfLoader::load after a successful header read: header validations,
the program-header loop, the use_interp rejection, then (stack setup,
which involves no direct VMA call in the sources, is not modelled) the
command-line materialization: allocate_virt of the cmdline page (result
discarded by the code) and copy_to of the cmdline bytes, the one VMA
result the code does test, returning NULL on its failure.  The result is
(the entry point of the returned Process or none for NULL, the final VMA
state, the accumulated allocate_virt / segment copy_to results). -/
def load (vma : VmaOps σ) (st : σ) (hdr : ELF64Header)
    (phs : List ELF64ProgramHeaderEntry) (cmdline_len : Nat) :
    Option Nat × σ × List Bool :=
  if header_ok hdr then
    match process_phs vma phs st [] false with
    | none => (none, st, [])
    | some (st1, log1, use_interp) =>
      if use_interp then (none, st1, log1)
      else if 0 < cmdline_len then
        let r1 := vma.allocate_virt st1 0x102000 1 (-1)
        let rc := vma.copy_to r1.2 0x102000 cmdline_len
        if rc.1 then (some hdr.entry_point, rc.2, log1 ++ [r1.1])
        else (none, rc.2, log1 ++ [r1.1])
      else (some hdr.entry_point, st1, log1)
  else (none, st, [])

/-- The VMA state after the program-header loop (used to name the state in
which the command-line copy_to runs). -/
def seg_state (vma : VmaOps σ) (phs : List ELF64ProgramHeaderEntry) (st : σ) : σ :=
  match process_phs vma phs st [] false with
  | some (st1, _, _) => st1
  | none => st

/-- C7 amended, as a predicate: with a valid header and no PT_INTERP entry,
load returns NULL exactly when the command line is non-empty and its
copy_to fails; the failure indicators of the segment-phase VMA calls do
not influence the result. -/
def load_error_claim (vma : VmaOps σ) (st : σ) (hdr : ELF64Header)
    (phs : List ELF64ProgramHeaderEntry) (cl : Nat) : Prop :=
  (load vma st hdr phs cl).1 =
    if 0 < cl ∧
        (vma.copy_to (vma.allocate_virt (seg_state vma phs st) 0x102000 1 (-1)).2
          0x102000 cl).1 = false
    then none
    else some hdr.entry_point

/-- A VMA on which every allocate_virt and copy_to reports failure and
nothing is ever mapped. -/
def vmaAllFail : VmaOps Unit :=
  ⟨fun _ _ => false, fun _ _ _ _ => (false, ()), fun _ _ _ => (false, ())⟩

/-- A well-formed 64-bit little-endian ET_EXEC x86-64 header with entry
point 0x400000. -/
def hdrOK : ELF64Header :=
  ⟨0x464c457f, 2, 1, 2, 0x3e, 1, 0x400000⟩

/-- One PT_LOAD segment: one whole page of file data at 0x400000. -/
def phLoad : ELF64ProgramHeaderEntry :=
  ⟨PT_LOAD, 0, 0x400000, 0x1000, 0x1000, true⟩

end ElfLoaderModel

namespace BuddyAllocator

/-! ### Properties of the scan loop -/

theorem scan_aux_ge (s : BuddyState) : ∀ fuel k, k ≤ scan_aux s fuel k := by
  intro fuel
  induction fuel with
  | zero => intro k; simp [scan_aux]
  | succ fuel ih =>
    intro k
    by_cases hk : s.list k = []
    · have := ih (k + 1)
      simp only [scan_aux, hk, if_true]
      omega
    · simp [scan_aux, hk]

theorem scan_aux_le (s : BuddyState) : ∀ fuel k, scan_aux s fuel k ≤ k + fuel := by
  intro fuel
  induction fuel with
  | zero => intro k; simp [scan_aux]
  | succ fuel ih =>
    intro k
    by_cases hk : s.list k = []
    · have := ih (k + 1)
      simp only [scan_aux, hk, if_true]
      omega
    · simp only [scan_aux, hk, if_false]
      omega

theorem find_range'_eq_scan_aux (s : BuddyState) :
    ∀ fuel k, (List.range' k fuel).find? (fun j => !(s.list j).isEmpty) =
      if scan_aux s fuel k = k + fuel then none else some (scan_aux s fuel k) := by
  intro fuel
  induction fuel with
  | zero => intro k; simp [scan_aux]
  | succ fuel ih =>
    intro k
    rw [List.range'_succ]
    by_cases hk : s.list k = []
    · have hemp : (s.list k).isEmpty = true := by simp [hk]
      rw [List.find?_cons_of_neg _ (by simp [hemp])]
      rw [ih (k + 1)]
      have harith : k + 1 + fuel = k + (fuel + 1) := by omega
      simp only [scan_aux, hk, if_true, harith]
    · have hemp : (s.list k).isEmpty = false := by
        simp [List.isEmpty_iff, hk]
      rw [List.find?_cons_of_pos _ (by simp [hemp])]
      have hlt : scan_aux s (fuel + 1) k = k := by simp [scan_aux, hk]
      rw [hlt]
      have : ¬ (k = k + (fuel + 1)) := by omega
      simp [this]

theorem first_free_order_eq_scan (s : BuddyState) (order : Nat) (h : order ≤ MAX_ORDER) :
    first_free_order s order =
      if scan_order s order = MAX_ORDER then none else some (scan_order s order) := by
  unfold first_free_order scan_order
  rw [find_range'_eq_scan_aux]
  have harith : order + (MAX_ORDER - order) = MAX_ORDER := by omega
  rw [harith]

/-! ### The split loop equals the claim-worded split -/

theorem split_loop_eq_split_down (block order : Nat) :
    ∀ co s, split_loop block order co s = split_down s block co order := by
  intro co
  induction co with
  | zero =>
    intro s
    simp [split_loop, split_down]
  | succ co ih =>
    intro s
    by_cases hco : order < co + 1
    · have hsub : co + 1 - order = (co - order) + 1 := by omega
      have hshift : (1 <<< co) = 2 ^ co := by simp [Nat.shiftLeft_eq]
      simp only [split_loop, hco, if_true, hshift]
      rw [ih]
      unfold split_down
      rw [hsub, List.range'_concat]
      have hcoeq : order + 1 * (co - order) = co := by omega
      rw [hcoeq]
      simp [List.foldl_append]
    · have hsub : co + 1 - order = 0 := by omega
      simp [split_loop, hco, split_down, hsub, List.range']

/-! ### C1: functional behaviour of allocate -/

/-- C1: allocate(order) scans orders from the requested order upward for the
first non-empty free list; if every free list up to MAX_ORDER is empty it
returns the out-of-memory indicator with the allocator state unchanged;
otherwise it removes the first block from that list, splits it down one
level at a time keeping the lower half and reinserting each upper half at
the now-one-smaller order, marks the returned base as allocated, and
returns it. -/
theorem allocate_meets_claim (s : BuddyState) (order : Nat) (h : order < MAX_ORDER) :
    allocate_claim s order := by
  have hff := first_free_order_eq_scan s order (by omega)
  unfold allocate_claim
  rw [hff]
  by_cases hs : scan_order s order = MAX_ORDER
  · simp only [hs, if_true]
    simp [allocate, hs]
  · simp only [hs, if_false]
    constructor
    · have hfind : first_free_order s order = some (scan_order s order) := by
        rw [hff]; simp [hs]
      have := List.find?_some hfind
      simpa [List.isEmpty_iff] using this
    · simp only [allocate, hs, if_false]
      rw [split_loop_eq_split_down]
      rfl

/-- Witness for C1 at the state reached by initialise on 2^17 zeroed
descriptors, with order 0. -/
theorem allocate_meets_claim_witness :
    0 < MAX_ORDER ∧ allocate_claim sInit 0 :=
  ⟨by decide, allocate_meets_claim sInit 0 (by decide)⟩

/-! ### C10: allocate never dereferences a null pointer -/

/-- C10: in every state, either every free list from the requested order
through MAX_ORDER - 1 is empty and allocate returns the null indicator with
the state untouched, or the scan stops at a verified non-empty free list
whose head (the non-null descriptor remove_first returns) is the returned
block. -/
theorem allocate_no_null (s : BuddyState) (order : Nat) (h : order < MAX_ORDER) :
    allocate_no_null_claim s order := by
  have hff := first_free_order_eq_scan s order (by omega)
  by_cases hs : scan_order s order = MAX_ORDER
  · left
    constructor
    · intro j hj1 hj2
      have hnone : first_free_order s order = none := by rw [hff]; simp [hs]
      unfold first_free_order at hnone
      have hjmem : j ∈ List.range' order (MAX_ORDER - order) := by
        rw [List.mem_range']
        exact ⟨j - order, by omega, by omega⟩
      have := List.find?_eq_none.mp hnone j hjmem
      simpa [List.isEmpty_iff] using this
    · simp [allocate, hs]
  · right
    have hge : order ≤ scan_order s order := scan_aux_ge s _ order
    have hle : scan_order s order ≤ MAX_ORDER := by
      have := scan_aux_le s (MAX_ORDER - order) order
      unfold scan_order
      omega
    have hlt : scan_order s order < MAX_ORDER := by omega
    have hne : s.list (scan_order s order) ≠ [] := by
      have hfind : first_free_order s order = some (scan_order s order) := by
        rw [hff]; simp [hs]
      have := List.find?_some hfind
      simpa [List.isEmpty_iff] using this
    rcases hl : s.list (scan_order s order) with _ | ⟨b, rest⟩
    · exact absurd hl hne
    · exact ⟨scan_order s order, b, rest, hge, hlt, hl, by simp [allocate, hs, hl]⟩

/-- Witness for C10 at a state with every free list empty. -/
theorem allocate_no_null_witness :
    0 < MAX_ORDER ∧
      allocate_no_null_claim ⟨List.replicate MAX_ORDER [], fun _ => 0, 0⟩ 0 :=
  ⟨by decide, allocate_no_null ⟨List.replicate MAX_ORDER [], fun _ => 0, 0⟩ 0 (by decide)⟩

/-! ### C2: functional behaviour of free -/

theorem if_lt_eq_min (a b : Nat) : (if a < b then a else b) = min a b := by
  by_cases h : a < b
  · simp [h, Nat.min_eq_left h.le]
  · have hba : b ≤ a := by omega
    simp [h, Nat.min_eq_right hba]

theorem free_merge_aux_eq_claim :
    ∀ fuel (s : BuddyState) (block order : Nat), MAX_ORDER - 1 - order = fuel →
      free_merge_aux s block order fuel = free_claim_merge s block order := by
  intro fuel
  induction fuel with
  | zero =>
    intro s block order hfu
    rw [free_claim_merge]
    rw [dif_neg (by omega : ¬ (order < MAX_ORDER - 1 ∧ s.flags (block ^^^ (1 <<< order)) = 0))]
    rfl
  | succ fuel ih =>
    intro s block order hfu
    have horder : order < MAX_ORDER - 1 := by omega
    by_cases hf : s.flags (buddy_of block order) = 0
    · have hfree : is_free s (buddy_of block order) = true := by simp [is_free, hf]
      rw [free_claim_merge]
      rw [dif_pos (by exact ⟨horder, hf⟩)]
      simp only [free_merge_aux, hfree, if_true]
      rw [ih _ _ _ (by omega)]
      rw [if_lt_eq_min]
      rfl
    · have hfree : is_free s (buddy_of block order) = false := by simp [is_free, hf]
      rw [free_claim_merge]
      rw [dif_neg (fun hc => hf hc.2)]
      simp [free_merge_aux, hfree]

/-- C2: free(block, order) computes the buddy index as the block index
XOR (1 << order); while the buddy block is free and order is below
MAX_ORDER - 1 it removes the buddy from its free list, merges taking the
lower of the two indices as the new base and increments order; when the
loop stops it inserts the final merged or original block into the free
list for the resulting order, marking it free. -/
theorem free_meets_claim (s : BuddyState) (block order : Nat) :
    free s block order = free_claim_merge s block order :=
  free_merge_aux_eq_claim (MAX_ORDER - 1 - order) s block order rfl

/-! ### C6: the buddy-index computation -/

/-- C6: for an order-aligned index, the buddy computation used by free is
the XOR with 1 << order, its result is again order-aligned, and it is an
involution. -/
theorem buddy_involution (i o : Nat) (ho : o < MAX_ORDER) (hi : 2 ^ o ∣ i) :
    buddy_of i o = i ^^^ 2 ^ o ∧ 2 ^ o ∣ buddy_of i o ∧ buddy_of (buddy_of i o) o = i := by
  have hs : (1 <<< o) = 2 ^ o := by simp [Nat.shiftLeft_eq]
  have hmod : i % 2 ^ o = 0 := Nat.mod_eq_zero_of_dvd hi
  refine ⟨by simp [buddy_of, hs], ?_, ?_⟩
  · apply Nat.dvd_of_mod_eq_zero
    have hlow : ∀ j, j < o → i.testBit j = false := by
      intro j hj
      have h1 := Nat.testBit_mod_two_pow i o j
      rw [hmod, Nat.zero_testBit] at h1
      simp [hj] at h1
      exact h1
    apply Nat.eq_of_testBit_eq
    intro j
    rw [Nat.testBit_mod_two_pow, Nat.zero_testBit]
    by_cases hj : j < o
    · have hoj : o ≠ j := by omega
      simp [buddy_of, hs, hj, hlow j hj, Nat.testBit_two_pow, hoj]
    · simp [hj]
  · simp [buddy_of, hs, Nat.xor_cancel_right]

/-- Witness for C6 at i = 8, o = 2. -/
theorem buddy_involution_witness :
    (2 < MAX_ORDER ∧ 2 ^ 2 ∣ 8) ∧
      (buddy_of 8 2 = 8 ^^^ 2 ^ 2 ∧ 2 ^ 2 ∣ buddy_of 8 2 ∧ buddy_of (buddy_of 8 2) 2 = 8) :=
  ⟨⟨by decide, by decide⟩, buddy_involution 8 2 (by decide) (by decide)⟩

end BuddyAllocator

namespace BuddyAllocator

/-! ### C3 and C4: the flag-based free test corrupts reachable states -/

/-- C3: the claimed invariant fails on the code.  Immediately after
initialise on 2^17 zero-initialised descriptors, frame 1 has a clear
allocation flag yet heads no run resident in any free list (it is an
interior frame of the one top-order run).  Moreover, after the
precondition-respecting history leading to sPre followed by allocate(1)
(returning block 0) and free(0, 1), the free lists hold the run of order 17
based at 0 and the run of order 0 based at 2, which overlap each other and
the still-allocated frame 3 (both 2 and 3 lie below 2^17). -/
theorem free_flag_invariant_fails :
    (sInit.flags 1 = 0 ∧ ∀ k, k < MAX_ORDER → ¬ (1 ∈ sInit.list k)) ∧
    ((allocate sPre 1).1 = some 0 ∧ sPost.list 17 = [0] ∧ sPost.list 0 = [2] ∧
      sPost.flags 3 = 1 ∧ (2 : Nat) < 2 ^ 17 ∧ (3 : Nat) < 2 ^ 17) := by
  decide

/-- C4: the claimed alloc/free restoration fails on the code.  In the
reachable state sPre, allocate(1) succeeds returning block 0, but freeing
block 0 at order 1 immediately afterwards does not return the free lists to
their prior state: the stale zero flag of frame 2 makes the merge loop
swallow the free runs at orders 2..16 and deposit an overlapping top-order
run. -/
theorem alloc_free_pair_not_restoring :
    (allocate sPre 1).1 = some 0 ∧
      (free (allocate sPre 1).2 0 1).free_lists ≠ sPre.free_lists := by
  decide

/-! ### C5: behaviour of initialise -/

/-- C5 counterexample: at count 2^31 the (int) cast of the loop bound makes
initialise register no block at all, not the floor(2^31 / 2^17) = 2^14
blocks the claim requires for every count. -/
theorem initialise_claim_fails :
    ((initialise (fun _ => 0) (2 ^ 31)).list (MAX_ORDER - 1)).length ≠
      2 ^ 31 / 2 ^ (MAX_ORDER - 1) := by
  decide

end BuddyAllocator

namespace PTE

/-- C9 counterexample: the non-PT-level PAT flag (bit 12) is in the flag
bitset named by the spec, but writing it with set_flag and reading it back
with get_flag yields false, not the written true: both the flags() getter
and setter mask to the low 12 bits. -/
theorem set_get_nonpt_pat_fails :
    PTE_NONPT_PAT ∈ spec_flag_masks ∧
      get_flag (set_flag ⟨0⟩ PTE_NONPT_PAT true) PTE_NONPT_PAT = false := by
  decide

end PTE

namespace ElfLoaderModel

/-- C7 counterexample: loading a valid single-segment executable through a
VMA on which every allocate_virt and copy_to fails still returns a Process
(the entry point), even though failure indications were returned by the
segment-phase VMA calls; the loader discards those return values. -/
theorem load_ignores_segment_failures_cex :
    false ∈ (load vmaAllFail () hdrOK [phLoad] 0).2.2 ∧
      (load vmaAllFail () hdrOK [phLoad] 0).1 = some 0x400000 := by
  decide

end ElfLoaderModel

namespace BuddyAllocator

/-! ### C5 amended: initialise partitions the range for counts below the
(int) overflow zone -/

theorem length_insert_block (s : BuddyState) (idx k : Nat) :
    (insert_block s idx k).free_lists.length = s.free_lists.length := by
  simp [insert_block, BuddyState.setList]

theorem list_insert_block_self (s : BuddyState) (idx k : Nat)
    (h : k < s.free_lists.length) :
    (insert_block s idx k).list k = s.list k ++ [idx] := by
  simp [insert_block, BuddyState.setList, BuddyState.list,
    List.getElem?_set_self h]

theorem list_insert_block_ne (s : BuddyState) (idx k j : Nat) (h : j ≠ k) :
    (insert_block s idx k).list j = s.list j := by
  simp [insert_block, BuddyState.setList, BuddyState.list,
    List.getElem?_set_ne (Ne.symm h)]

theorem toInt32_of_lt (n : Nat) (h : n < 2 ^ 31) : toInt32 n = n := by
  have h32 : n % 2 ^ 32 = n := Nat.mod_eq_of_lt (by omega)
  unfold toInt32
  rw [h32, if_pos h]

theorem cast_add_block_size (m : Nat) :
    (m : Int) + block_size = ((m + 2 ^ 17 : Nat) : Int) := by
  have hb : block_size = ((2 ^ 17 : Nat) : Int) := by
    norm_num [block_size, MAX_ORDER]
  rw [hb]
  push_cast
  ring

theorem range_map_affine (m bs q : Nat) :
    (List.range (q + 1)).map (fun t => m + t * bs)
      = m :: (List.range q).map (fun t => m + bs + t * bs) := by
  rw [List.range_succ_eq_map]
  simp only [List.map_cons, List.map_map]
  congr 1
  · simp
  · congr 1
    funext t
    simp only [Function.comp_apply, Nat.succ_eq_add_one]
    ring

theorem initialise_loop_spec (nr : Nat) (hnr : nr < 2 ^ 31) :
    ∀ fuel (m : Nat) (s : BuddyState), nr ≤ m + fuel * 2 ^ 17 →
      s.free_lists.length = MAX_ORDER →
      ((initialise_loop nr fuel (m : Int) s).list (MAX_ORDER - 1)
          = s.list (MAX_ORDER - 1) ++
            (List.range ((nr - m) / 2 ^ 17)).map (fun t => m + t * 2 ^ 17))
      ∧ (∀ j, j ≠ MAX_ORDER - 1 → (initialise_loop nr fuel (m : Int) s).list j = s.list j)
      ∧ (initialise_loop nr fuel (m : Int) s).free_lists.length = MAX_ORDER := by
  intro fuel
  induction fuel with
  | zero =>
    intro m s hfu hlen
    have hm : nr - m = 0 := by omega
    simp [initialise_loop, hm, hlen]
  | succ fuel ih =>
    intro m s hfu hlen
    by_cases hm : m < nr
    · have hcond : (m : Int) < toInt32 nr := by
        rw [toInt32_of_lt nr hnr]
        exact_mod_cast hm
      by_cases hz : m + 2 ^ 17 ≤ nr
      · have hzi : ((m + 2 ^ 17 : Nat) : Int) ≤ (nr : Int) := by
          exact_mod_cast hz
        have hstep : initialise_loop nr (fuel + 1) (m : Int) s
            = initialise_loop nr fuel ((m + 2 ^ 17 : Nat) : Int)
                (insert_block s m (MAX_ORDER - 1)) := by
          simp only [initialise_loop, cast_add_block_size, Int.toNat_natCast]
          rw [if_pos hcond, if_pos hzi]
        have hlen' : (insert_block s m (MAX_ORDER - 1)).free_lists.length = MAX_ORDER := by
          rw [length_insert_block]; exact hlen
        obtain ⟨ih1, ih2, ih3⟩ := ih (m + 2 ^ 17) (insert_block s m (MAX_ORDER - 1))
          (by omega) hlen'
        refine ⟨?_, ?_, ?_⟩
        · rw [hstep, ih1]
          rw [list_insert_block_self s m (MAX_ORDER - 1) (by rw [hlen]; decide)]
          have hdiv : (nr - m) / 2 ^ 17 = (nr - (m + 2 ^ 17)) / 2 ^ 17 + 1 := by
            have hc : nr - m = (nr - (m + 2 ^ 17)) + 2 ^ 17 := by omega
            rw [hc, Nat.add_div_right _ (by norm_num)]
          rw [hdiv, range_map_affine, List.append_assoc]
          rfl
        · intro j hj
          rw [hstep, ih2 j hj, list_insert_block_ne s m (MAX_ORDER - 1) j hj]
        · rw [hstep]; exact ih3
      · have hzi : ¬ (((m + 2 ^ 17 : Nat) : Int) ≤ (nr : Int)) := by
          exact_mod_cast hz
        have hstep : initialise_loop nr (fuel + 1) (m : Int) s
            = initialise_loop nr fuel ((m + 2 ^ 17 : Nat) : Int) s := by
          simp only [initialise_loop, cast_add_block_size, Int.toNat_natCast]
          rw [if_pos hcond, if_neg hzi]
        obtain ⟨ih1, ih2, ih3⟩ := ih (m + 2 ^ 17) s (by omega) hlen
        have hz0 : (nr - (m + 2 ^ 17)) / 2 ^ 17 = 0 := by
          apply Nat.div_eq_of_lt
          omega
        have hz1 : (nr - m) / 2 ^ 17 = 0 := by
          apply Nat.div_eq_of_lt
          omega
        refine ⟨?_, ?_, ?_⟩
        · rw [hstep, ih1, hz0, hz1]
          simp
        · intro j hj
          rw [hstep, ih2 j hj]
        · rw [hstep]; exact ih3
    · have hcond : ¬ ((m : Int) < toInt32 nr) := by
        rw [toInt32_of_lt nr hnr]
        exact_mod_cast hm
      have hstep : initialise_loop nr (fuel + 1) (m : Int) s = s := by
        simp [initialise_loop, hcond]
      have hz1 : (nr - m) / 2 ^ 17 = 0 := by
        apply Nat.div_eq_of_lt
        omega
      rw [hstep, hz1]
      exact ⟨by simp, fun j _ => rfl, hlen⟩

/-- C5 amended: for every descriptor array and every count of at most
2^31 - 2^17 (counts in (2^31 - 2^17, 2^31) make the int loop counter
overflow, and counts of 2^31 and beyond are mangled by the (int) cast of
the loop bound), initialise clears all free lists and inserts exactly
floor(count / 2^(MAX_ORDER-1)) blocks, the aligned bases
0, 2^(MAX_ORDER-1), 2 * 2^(MAX_ORDER-1), ..., into the order MAX_ORDER - 1
free list, leaving every other free list empty and never registering
trailing frames that do not fill a complete top-order block. -/
theorem initialise_meets_claim (flags0 : Nat → Nat) (nr : Nat)
    (h : nr ≤ 2 ^ 31 - 2 ^ 17) : initialise_claim flags0 nr := by
  have hnr : nr < 2 ^ 31 := by omega
  have hfu : nr ≤ 0 + init_fuel * 2 ^ 17 := by
    simp only [init_fuel, MAX_ORDER]
    omega
  have hlen : (({ free_lists := List.replicate MAX_ORDER [], flags := flags0, nr := nr }
      : BuddyState)).free_lists.length = MAX_ORDER := by
    simp
  obtain ⟨h1, h2, h3⟩ := initialise_loop_spec nr hnr init_fuel 0
    { free_lists := List.replicate MAX_ORDER [], flags := flags0, nr := nr } hfu hlen
  have hbase : ∀ j, (({ free_lists := List.replicate MAX_ORDER [], flags := flags0, nr := nr }
      : BuddyState)).list j = [] := by
    intro j
    simp only [BuddyState.list, List.getD_eq_getElem?_getD, List.getElem?_replicate]
    split <;> rfl
  have hcast : ((0 : Nat) : Int) = (0 : Int) := rfl
  have hinit : initialise flags0 nr = initialise_loop nr init_fuel ((0 : Nat) : Int)
      { free_lists := List.replicate MAX_ORDER [], flags := flags0, nr := nr } := rfl
  have hmain : (initialise flags0 nr).list (MAX_ORDER - 1)
      = (List.range ((nr - 0) / 2 ^ 17)).map (fun t => 0 + t * 2 ^ 17) := by
    rw [hinit, h1, hbase]
    simp
  have hmap : (initialise flags0 nr).list (MAX_ORDER - 1)
      = (List.range (nr / 2 ^ (MAX_ORDER - 1))).map (fun t => t * 2 ^ (MAX_ORDER - 1)) := by
    rw [hmain]
    have hms : (MAX_ORDER - 1) = 17 := by decide
    rw [hms]
    simp
  refine ⟨?_, hmap, ?_, ?_⟩
  · rw [hmap]
    simp
  · intro j hj1 hj2
    rw [hinit, h2 j hj2, hbase]
  · intro b hb
    rw [hmap] at hb
    simp only [List.mem_map, List.mem_range] at hb
    obtain ⟨t, ht, rfl⟩ := hb
    constructor
    · exact dvd_mul_left _ _
    · have hstep : t * 2 ^ (MAX_ORDER - 1) + 2 ^ (MAX_ORDER - 1)
          = (t + 1) * 2 ^ (MAX_ORDER - 1) := by ring
      rw [hstep]
      calc (t + 1) * 2 ^ (MAX_ORDER - 1)
          ≤ (nr / 2 ^ (MAX_ORDER - 1)) * 2 ^ (MAX_ORDER - 1) :=
            Nat.mul_le_mul_right _ (by omega)
        _ ≤ nr := Nat.div_mul_le_self nr _

/-- Witness for C5 amended at count 2^17 with zeroed descriptors. -/
theorem initialise_meets_claim_witness :
    2 ^ 17 ≤ 2 ^ 31 - 2 ^ 17 ∧ initialise_claim (fun _ => 0) (2 ^ 17) :=
  ⟨by norm_num, initialise_meets_claim (fun _ => 0) (2 ^ 17) (by norm_num)⟩

end BuddyAllocator

namespace PTE

/-! ### C8 and C9: the page-table-entry accessor contract.
The constant 0xfff is 2^12 - 1 and 0xFFFFFFFFFFFFF000 is (2^52 - 1) << 12,
so the flag field occupies bits 0..11 and the address field bits 12..63;
the proofs are by extensionality over test bits. -/

theorem testBit_fff (j : Nat) : Nat.testBit 0xfff j = decide (j < 12) := by
  have h : (0xfff : Nat) = 2 ^ 12 - 1 := by norm_num
  rw [h, Nat.testBit_two_pow_sub_one]

theorem testBit_ffffffff (j : Nat) : Nat.testBit 0xffffffff j = decide (j < 32) := by
  have h : (0xffffffff : Nat) = 2 ^ 32 - 1 := by norm_num
  rw [h, Nat.testBit_two_pow_sub_one]

theorem testBit_high (j : Nat) :
    Nat.testBit 0xFFFFFFFFFFFFF000 j = (decide (12 ≤ j) && decide (j < 64)) := by
  have h : (0xFFFFFFFFFFFFF000 : Nat) = (2 ^ 52 - 1) <<< 12 := by
    norm_num [Nat.shiftLeft_eq]
  rw [h, Nat.testBit_shiftLeft, Nat.testBit_two_pow_sub_one]
  rcases Nat.lt_or_ge j 12 with hj | hj
  · rw [decide_eq_false (by omega : ¬ 12 ≤ j)]
    simp
  · rw [decide_eq_true (by omega : 12 ≤ j)]
    simp only [Bool.true_and]
    exact decide_eq_decide.mpr (by omega)

theorem low_of_land_fff (m : Nat) (h1 : m &&& 0xfff = m) :
    ∀ i, m.testBit i = true → i < 12 := by
  intro i hi
  by_contra hge
  have hc := congrArg (fun z => z.testBit i) h1
  simp only [Nat.testBit_and, testBit_fff, hi] at hc
  simp at hc
  exact hge hc

theorem disjoint_testBit (m m2 : Nat) (hd : m &&& m2 = 0) :
    ∀ i, m2.testBit i = true → m.testBit i = false := by
  intro i hi
  have hc := congrArg (fun z => z.testBit i) hd
  simp only [Nat.testBit_and, Nat.zero_testBit, hi, Bool.and_true] at hc
  exact hc

theorem flags_set_flag_true_self (e : GenericX86PageTableEntry) (m : Nat)
    (h1 : m &&& 0xfff = m) :
    flags (set_flag e m true) &&& m = m := by
  show flags (set_flags e (flags e ||| m)) &&& m = m
  apply Nat.eq_of_testBit_eq
  intro j
  simp only [set_flags, flags, Nat.testBit_and, Nat.testBit_or, testBit_fff, testBit_high]
  by_cases hmj : m.testBit j = true
  · have hj : j < 12 := low_of_land_fff m h1 j hmj
    simp [hmj, hj, (by omega : ¬ 12 ≤ j)]
  · simp only [Bool.not_eq_true] at hmj
    simp [hmj]

theorem flags_set_flag_false_self (e : GenericX86PageTableEntry) (m : Nat) :
    flags (set_flag e m false) &&& m = 0 := by
  show flags (set_flags e (flags e &&& (0xffffffff ^^^ m))) &&& m = 0
  apply Nat.eq_of_testBit_eq
  intro j
  simp only [set_flags, flags, Nat.testBit_and, Nat.testBit_or, Nat.testBit_xor,
    testBit_fff, testBit_high, testBit_ffffffff, Nat.zero_testBit]
  by_cases hj : j < 12
  · by_cases hmj : m.testBit j = true
    · simp [hj, hmj, (by omega : ¬ 12 ≤ j), (by omega : j < 32)]
    · simp only [Bool.not_eq_true] at hmj
      simp [hj, hmj]
  · simp [hj]

theorem flags_set_flag_true_other (e : GenericX86PageTableEntry) (m m2 : Nat)
    (hd : m &&& m2 = 0) :
    flags (set_flag e m true) &&& m2 = flags e &&& m2 := by
  show flags (set_flags e (flags e ||| m)) &&& m2 = flags e &&& m2
  apply Nat.eq_of_testBit_eq
  intro j
  simp only [set_flags, flags, Nat.testBit_and, Nat.testBit_or, testBit_fff, testBit_high]
  by_cases hm2 : m2.testBit j = true
  · have hm : m.testBit j = false := disjoint_testBit m m2 hd j hm2
    by_cases hj : j < 12
    · simp [hm2, hm, hj, (by omega : ¬ 12 ≤ j)]
    · simp [hm2, hm, hj]
  · simp only [Bool.not_eq_true] at hm2
    simp [hm2]

theorem flags_set_flag_false_other (e : GenericX86PageTableEntry) (m m2 : Nat)
    (hd : m &&& m2 = 0) :
    flags (set_flag e m false) &&& m2 = flags e &&& m2 := by
  show flags (set_flags e (flags e &&& (0xffffffff ^^^ m))) &&& m2 = flags e &&& m2
  apply Nat.eq_of_testBit_eq
  intro j
  simp only [set_flags, flags, Nat.testBit_and, Nat.testBit_or, Nat.testBit_xor,
    testBit_fff, testBit_high, testBit_ffffffff]
  by_cases hm2 : m2.testBit j = true
  · have hm : m.testBit j = false := disjoint_testBit m m2 hd j hm2
    by_cases hj : j < 12
    · simp [hm2, hm, hj, (by omega : ¬ 12 ≤ j), (by omega : j < 32)]
    · simp [hm2, hm, hj]
  · simp only [Bool.not_eq_true] at hm2
    simp [hm2]

theorem roundtrip_low (e : GenericX86PageTableEntry) (v : Bool) (m : Nat)
    (h1 : m &&& 0xfff = m) (h2 : m ≠ 0) :
    get_flag (set_flag e m v) m = v := by
  cases v with
  | true =>
    show (flags (set_flag e m true) &&& m != 0) = true
    rw [flags_set_flag_true_self e m h1]
    exact bne_iff_ne.mpr h2
  | false =>
    show (flags (set_flag e m false) &&& m != 0) = false
    rw [flags_set_flag_false_self e m]
    simp

theorem preserved_of_disjoint (e : GenericX86PageTableEntry) (v : Bool) (m m2 : Nat)
    (hd : m &&& m2 = 0) :
    get_flag (set_flag e m v) m2 = get_flag e m2 := by
  cases v with
  | true =>
    show (flags (set_flag e m true) &&& m2 != 0) = (flags e &&& m2 != 0)
    rw [flags_set_flag_true_other e m m2 hd]
  | false =>
    show (flags (set_flag e m false) &&& m2 != 0) = (flags e &&& m2 != 0)
    rw [flags_set_flag_false_other e m m2 hd]

theorem flags_set_base (e : GenericX86PageTableEntry) (addr : Nat) :
    flags (set_base_address e addr) = flags e := by
  apply Nat.eq_of_testBit_eq
  intro j
  simp only [set_base_address, flags, Nat.testBit_and, Nat.testBit_or, testBit_fff,
    testBit_high]
  by_cases hj : j < 12
  · simp [hj, (by omega : ¬ 12 ≤ j)]
  · simp [hj]

theorem base_set_flags (e : GenericX86PageTableEntry) (f : Nat) :
    base_address (set_flags e f) = base_address e := by
  apply Nat.eq_of_testBit_eq
  intro j
  simp only [set_flags, base_address, Nat.testBit_and, Nat.testBit_or, testBit_fff,
    testBit_high]
  by_cases hj : j < 12
  · rw [decide_eq_false (by omega : ¬ 12 ≤ j)]
    simp
  · rw [decide_eq_true (by omega : 12 ≤ j), decide_eq_false hj]
    simp [Bool.and_assoc]

theorem base_aligned (e : GenericX86PageTableEntry) : 2 ^ 12 ∣ base_address e := by
  apply Nat.dvd_of_mod_eq_zero
  apply Nat.eq_of_testBit_eq
  intro j
  rw [Nat.testBit_mod_two_pow, Nat.zero_testBit]
  by_cases hj : j < 12
  · simp only [base_address, Nat.testBit_and, testBit_high]
    simp [hj, (by omega : ¬ 12 ≤ j)]
  · simp [hj]


/-- C8: writing only the base address preserves the flag bits, writing only
the flags preserves the address bits, and the base_address getter is the
stored word with the low-order (non-address) bits masked off, hence
frame-aligned. -/
theorem pte_accessors_preserve :
    (∀ (e : GenericX86PageTableEntry) (addr : Nat),
        flags (set_base_address e addr) = flags e)
    ∧ (∀ (e : GenericX86PageTableEntry) (f : Nat),
        base_address (set_flags e f) = base_address e)
    ∧ (∀ e : GenericX86PageTableEntry,
        base_address e = e.bits &&& 0xFFFFFFFFFFFFF000 ∧ 2 ^ 12 ∣ base_address e) :=
  ⟨flags_set_base, base_set_flags, fun e => ⟨rfl, base_aligned e⟩⟩

/-- C9 amended: for every flag of the spec flag bitset other than the
non-PT-level PAT bit (bit 12, which the 0xfff masks of the flags accessors
cut off), writing the flag with set_flag and reading it back with get_flag
returns the written value, and every other flag of the bitset is unchanged
by the write. -/
theorem set_get_flag_roundtrip (m : Nat) (hm : m ∈ spec_flag_masks)
    (hne : m ≠ PTE_NONPT_PAT) (e : GenericX86PageTableEntry) (v : Bool) :
    get_flag (set_flag e m v) m = v ∧
      ∀ m2 ∈ spec_flag_masks, m2 ≠ m → get_flag (set_flag e m v) m2 = get_flag e m2 := by
  have hmask : m &&& 0xfff = m ∧ m ≠ 0 := by
    simp only [spec_flag_masks, PTE_PRESENT, PTE_WRITABLE, PTE_ALLOW_USER, PTE_HUGE,
      PTE_ACCESSED, PTE_DIRTY, PTE_GLOBAL, PTE_WRITE_THROUGH, PTE_CACHE_DISABLED,
      PTE_NONPT_PAT, List.mem_cons, List.not_mem_nil, or_false] at hm
    simp only [PTE_NONPT_PAT] at hne
    rcases hm with rfl | rfl | rfl | rfl | rfl | rfl | rfl | rfl | rfl | rfl
    · exact ⟨by decide, by decide⟩
    · exact ⟨by decide, by decide⟩
    · exact ⟨by decide, by decide⟩
    · exact ⟨by decide, by decide⟩
    · exact ⟨by decide, by decide⟩
    · exact ⟨by decide, by decide⟩
    · exact ⟨by decide, by decide⟩
    · exact ⟨by decide, by decide⟩
    · exact ⟨by decide, by decide⟩
    · exact absurd rfl hne
  refine ⟨roundtrip_low e v m hmask.1 hmask.2, ?_⟩
  intro m2 hm2 hne2
  have hd : m &&& m2 = 0 := by
    simp only [spec_flag_masks, PTE_PRESENT, PTE_WRITABLE, PTE_ALLOW_USER, PTE_HUGE,
      PTE_ACCESSED, PTE_DIRTY, PTE_GLOBAL, PTE_WRITE_THROUGH, PTE_CACHE_DISABLED,
      PTE_NONPT_PAT, List.mem_cons, List.not_mem_nil, or_false] at hm hm2
    rcases hm with rfl | rfl | rfl | rfl | rfl | rfl | rfl | rfl | rfl | rfl <;>
      rcases hm2 with rfl | rfl | rfl | rfl | rfl | rfl | rfl | rfl | rfl | rfl <;>
      first
        | exact absurd rfl hne2
        | decide
  exact preserved_of_disjoint e v m m2 hd

/-- Witness for C9 amended: the writable flag on the entry with bits 5. -/
theorem set_get_flag_roundtrip_witness :
    (PTE_WRITABLE ∈ spec_flag_masks ∧ PTE_WRITABLE ≠ PTE_NONPT_PAT) ∧
      (get_flag (set_flag ⟨5⟩ PTE_WRITABLE true) PTE_WRITABLE = true ∧
        ∀ m2 ∈ spec_flag_masks, m2 ≠ PTE_WRITABLE →
          get_flag (set_flag ⟨5⟩ PTE_WRITABLE true) m2 = get_flag ⟨5⟩ m2) :=
  ⟨⟨by decide, by decide⟩,
    set_get_flag_roundtrip PTE_WRITABLE (by decide) (by decide) ⟨5⟩ true⟩

end PTE

namespace ElfLoaderModel

/-! ### C7 amended: which failures the loader actually checks -/

theorem process_phs_no_interp (σ : Type) (vma : VmaOps σ) :
    ∀ (phs : List ELF64ProgramHeaderEntry) (st : σ) (log : List Bool),
      (∀ e ∈ phs, e.ptype ≠ PT_INTERP) →
      ∃ st1 log1, process_phs vma phs st log false = some (st1, log1, false) := by
  intro phs
  induction phs with
  | nil =>
    intro st log h
    exact ⟨st, log, rfl⟩
  | cons ent rest ih =>
    intro st log h
    have hrest : ∀ e ∈ rest, e.ptype ≠ PT_INTERP :=
      fun e he => h e (List.mem_cons_of_mem _ he)
    by_cases hl : ent.ptype = PT_LOAD
    · simp only [process_phs]
      rw [if_pos hl]
      exact ih _ _ hrest
    · have hi : ent.ptype ≠ PT_INTERP := h ent (List.mem_cons_self _ _)
      simp only [process_phs]
      rw [if_neg hl, if_neg hi]
      exact ih _ _ hrest

/-- C7 amended: with a valid header and no PT_INTERP program header, load
returns NULL exactly when the command line is non-empty and the
command-line copy_to fails; the failure indicators returned by the
segment-phase allocate_virt and copy_to calls are discarded and do not
influence the result (and on the command-line failure path the partially
constructed process is not released). -/
theorem load_checks_only_cmdline_copy (σ : Type) (vma : VmaOps σ) (st : σ)
    (hdr : ELF64Header) (phs : List ELF64ProgramHeaderEntry) (cl : Nat)
    (h1 : header_ok hdr = true) (h2 : ∀ e ∈ phs, e.ptype ≠ PT_INTERP) :
    load_error_claim vma st hdr phs cl := by
  obtain ⟨st1, log1, hp⟩ := process_phs_no_interp σ vma phs st [] h2
  have hseg : seg_state vma phs st = st1 := by
    unfold seg_state
    rw [hp]
  unfold load_error_claim load
  simp only [h1, if_true]
  rw [hp, hseg]
  by_cases hcl : 0 < cl
  · cases hrc : (vma.copy_to (vma.allocate_virt st1 0x102000 1 (-1)).2 0x102000 cl).1 with
    | true => simp [hcl, hrc]
    | false => simp [hcl, hrc]
  · simp [hcl]

/-- Witness for C7 amended: the all-failing VMA, a valid header, no program
headers and an empty command line. -/
theorem load_checks_only_cmdline_copy_witness :
    (header_ok hdrOK = true ∧
      ∀ e ∈ ([] : List ELF64ProgramHeaderEntry), e.ptype ≠ PT_INTERP) ∧
      load_error_claim vmaAllFail () hdrOK [] 0 :=
  ⟨⟨by decide, fun e he => absurd he (List.not_mem_nil e)⟩,
    load_checks_only_cmdline_copy Unit vmaAllFail () hdrOK [] 0 (by decide)
      (fun e he => absurd he (List.not_mem_nil e))⟩

end ElfLoaderModel
